import Mathlib

/-!
# Creative Generation Orchestrator — verification development

Shallow embedding of the orchestration layer of the ad-generator
application (`src/types.ts`, `src/unnamed/part_002` = `services/geminiService.ts`
plus `App.tsx`, and `src/components/InteractiveAssistant.tsx`).

The session state is the ordered collection of `AdCreative` values held in the
`adCreatives` React state.  Every handler updates it through
`setAdCreatives(prev => prev.map(c => c.id === id ? {...} : c))`, a pure keyed
merge, so each handler is embedded as a pure function
`List AdCreative → List AdCreative` (plus the list of remote calls it issues).

JavaScript `Record<string, AdVariant>` objects are embedded as association
lists `List (String × AdVariant)`: string-keyed JS objects preserve insertion
order, `{...m, [k]: v}` replaces the value of an existing key in place, and
`Object.keys` is the key list in that order.  The handlers only ever update a
ratio key that is present in the map (an absent key would make the JS code
dereference `undefined`), so updates are modelled by `recUpdate`, which is
in-place modification of the entries holding the key; theorems carry the
presence of the key as a hypothesis.
-/
/-- Structure `AdImage` from `src/types.ts`. -/
structure AdImage where
  url : String
  aspectRatio : String
  isPreview : Bool
  deriving DecidableEq, Repr

/-- Structure `AdVariant` from `src/types.ts`.  `currentHistoryIndex` is an `Int`
because the code uses `-1` as the "empty history" sentinel. -/
structure AdVariant where
  aspectRatio : String
  imagePrompt : String
  history : List AdImage
  currentHistoryIndex : Int
  isGenerating : Bool
  deriving DecidableEq, Repr

/-- The `status` union type of `AdCreative` in `src/types.ts`. -/
inductive CreativeStatus where
  | generating_text
  | generating_preview
  | preview_ready
  | generating_full
  | completed
  deriving DecidableEq, Repr

/-- Structure `AdCreative` from `src/types.ts`.  `variants` is the ratio-keyed map. -/
structure AdCreative where
  id : String
  title : String
  subtitle : String
  rationale : String
  variants : List (String × AdVariant)
  activeVariant : String
  imageSize : String
  status : CreativeStatus
  deriving DecidableEq, Repr

/-- Read a key of a JS object embedded as an association list
(`m[k]`, `undefined` becoming `none`). -/
def recGet : List (String × AdVariant) → String → Option AdVariant
  | [], _ => none
  | p :: m, k => if p.1 = k then some p.2 else recGet m k

/-- Spread update `{...m, [k]: g (m[k])}` for a key `k` that is present in `m`:
the entries holding `k` are updated in place, insertion order is kept. -/
def recUpdate (m : List (String × AdVariant)) (k : String)
    (g : AdVariant → AdVariant) : List (String × AdVariant) :=
  m.map (fun p => if p.1 = k then (p.1, g p.2) else p)

/-- The `prev.map(c => c.id === id ? f(c) : c)` pattern shared by every
state update in `App.tsx`. -/
def updateCreative (id : String) (f : AdCreative → AdCreative)
    (s : List AdCreative) : List AdCreative :=
  s.map (fun c => if c.id = id then f c else c)

/-- Lookup `adCreatives.find(c => c.id === id)`. -/
def getCreative : List AdCreative → String → Option AdCreative
  | [], _ => none
  | c :: s, id => if c.id = id then some c else getCreative s id

/-- The variant stored for `(id, ratio)`, through the creative lookup. -/
def getVariant (s : List AdCreative) (id ratio : String) : Option AdVariant :=
  (getCreative s id).bind (fun c => recGet c.variants ratio)

/-! ## The orchestrator operations (from `App.tsx` in `src/unnamed/part_002`) -/
/-- Kinds of remote image calls issued by the handlers: `full` is
`generateAdImage` (Gemini full quality), `editCall` is `editAdImage`. -/
inductive CallKind where
  | full
  | editCall
  deriving DecidableEq, Repr

/-- One remote generation/edit call, with the arguments the handler passes. -/
structure GenCall where
  kind : CallKind
  creativeId : String
  ratio : String
  prompt : String
  imageSize : String
  deriving DecidableEq, Repr

/-- The success update shared by `handleRegenerateVariant`,
`handleEditVariant` and the per-ratio fan-out of `handleApproveCreative`:
`history: [...existingHistory, newImage]`,
`currentHistoryIndex: existingHistory.length`, `isGenerating: false`,
where `newImage = { url, aspectRatio: ratio, isPreview: false }`. -/
def variantAppendSuccess (ratio url : String) (v : AdVariant) : AdVariant :=
  { v with
    history := v.history ++ [⟨url, ratio, false⟩],
    currentHistoryIndex := (v.history.length : Int),
    isGenerating := false }

/-- The failure update shared by every catch branch: only
`isGenerating: false` on the target variant. -/
def clearBusy (id ratio : String) (s : List AdCreative) : List AdCreative :=
  updateCreative id
    (fun c =>
      { c with
        variants := recUpdate c.variants ratio
          (fun v => { v with isGenerating := false }) })
    s

/-- First `setAdCreatives` of `handleRegenerateVariant`: store the new prompt
on the target variant, mark it busy, and write the new quality into the
creative-level `imageSize` ("update global size preference for this card"). -/
def regenerateStart (id ratio newPrompt newImageSize : String)
    (s : List AdCreative) : List AdCreative :=
  updateCreative id
    (fun c => { c with
      imageSize := newImageSize,
      variants := recUpdate c.variants ratio
        (fun v => { v with imagePrompt := newPrompt, isGenerating := true }) }) s

/-- Success `setAdCreatives` of `handleRegenerateVariant` (appends the new
image to the target variant's history). -/
def regenerateSuccess (id ratio url : String) (s : List AdCreative) :
    List AdCreative :=
  updateCreative id
    (fun c =>
      { c with
        variants := recUpdate c.variants ratio
          (variantAppendSuccess ratio url) })
    s

/-- Handler `handleRegenerateVariant(id, ratio, newPrompt, newImageSize)`, with the
remote call's outcome supplied as `outcome` (`some url` on success, `none` on
failure).  Returns the issued remote calls paired with the final collection;
`none` models the `undefined`-dereference the JS code would hit when the
ratio key is absent from the found creative's variant map. -/
def runRegenerate (id ratio newPrompt newImageSize : String)
    (outcome : Option String) (s : List AdCreative) :
    Option (List GenCall × List AdCreative) :=
  match getCreative s id with
  | none => some ([], s)
  | some c =>
    match recGet c.variants ratio with
    | none => none
    | some _ =>
      let s1 := regenerateStart id ratio newPrompt newImageSize s
      let call : GenCall := ⟨.full, id, ratio, newPrompt, newImageSize⟩
      match outcome with
      | some url => some ([call], regenerateSuccess id ratio url s1)
      | none => some ([call], clearBusy id ratio s1)

/-- Access `variant.history[variant.currentHistoryIndex]` (array access with an
`Int` index; a negative or out-of-range index is `undefined`). -/
def currentImage (v : AdVariant) : Option AdImage :=
  if v.currentHistoryIndex < 0 then none
  else v.history[v.currentHistoryIndex.toNat]?

/-- Split a character list at the first occurrence of `sep`, returning the
part before and the part after it. -/
def splitFirst : List Char → List Char → Option (List Char × List Char)
  | [], _ => none
  | c :: rest, sep =>
    if sep.isPrefixOf (c :: rest) then some ([], (c :: rest).drop sep.length)
    else
      match splitFirst rest sep with
      | some (pre, post) => some (c :: pre, post)
      | none => none

/-- The `^data:(image\/.*?);base64,(.*)$` match of `handleEditVariant`:
group 1 is the lazily-matched mime type (`image/` up to the first
`";base64,"`), group 2 the base64 payload after it. -/
def parseDataUrl (u : String) : Option (String × String) :=
  if ("data:image/".data).isPrefixOf u.data then
    match splitFirst (u.data.drop 11) (";base64,".data) with
    | some (mime0, payload) =>
      some (⟨"image/".data ++ mime0⟩, ⟨payload⟩)
    | none => none
  else none

/-- Busy-marking `setAdCreatives` of `handleEditVariant` (the edit start
touches only `isGenerating`). -/
def editStart (id ratio : String) (s : List AdCreative) : List AdCreative :=
  updateCreative id
    (fun c =>
      { c with
        variants := recUpdate c.variants ratio
          (fun v => { v with isGenerating := true }) })
    s

/-- Success `setAdCreatives` of `handleEditVariant`: same append shape as
`regenerateSuccess`. -/
def editSuccess (id ratio url : String) (s : List AdCreative) :
    List AdCreative :=
  updateCreative id
    (fun c =>
      { c with
        variants := recUpdate c.variants ratio
          (variantAppendSuccess ratio url) })
    s

/-- Handler `handleEditVariant(id, ratio, editPrompt, imageSize)`, with the remote
edit call's outcome supplied.  The guards ("fail fast") come first: a missing
creative is a plain return, a missing selected image or an unparsable data
URL issues no call; `none` models the `undefined` dereference on an absent
ratio key. -/
def runEdit (id ratio editPrompt imageSize : String)
    (outcome : Option String) (s : List AdCreative) :
    Option (List GenCall × List AdCreative) :=
  match getCreative s id with
  | none => some ([], s)
  | some c =>
    match recGet c.variants ratio with
    | none => none
    | some v =>
      match currentImage v with
      | none => some ([], s)
      | some img =>
        match parseDataUrl img.url with
        | none => some ([], s)
        | some _ =>
          let s1 := editStart id ratio s
          let call : GenCall := ⟨.editCall, id, ratio, editPrompt, imageSize⟩
          match outcome with
          | some url => some ([call], editSuccess id ratio url s1)
          | none => some ([call], clearBusy id ratio s1)

/-- The `handleNavigateHistory` direction argument. -/
inductive NavDir where
  | prev
  | next
  deriving DecidableEq, Repr

/-- The new cursor computed by `handleNavigateHistory`:
`Math.max(0, i - 1)` or `Math.min(history.length - 1, i + 1)`. -/
def navIndex (dir : NavDir) (v : AdVariant) : Int :=
  match dir with
  | .prev => max 0 (v.currentHistoryIndex - 1)
  | .next => min ((v.history.length : Int) - 1) (v.currentHistoryIndex + 1)

/-- Handler `handleNavigateHistory(id, ratio, direction)`. -/
def navigateHistory (id ratio : String) (dir : NavDir)
    (s : List AdCreative) : List AdCreative :=
  updateCreative id
    (fun c =>
      { c with
        variants := recUpdate c.variants ratio
          (fun v => { v with currentHistoryIndex := navIndex dir v }) })
    s

/-- First `setAdCreatives` of `handleApproveCreative`: status becomes
`generating_full` and every ratio's variant is marked busy. -/
def approveStart (id : String) (s : List AdCreative) : List AdCreative :=
  updateCreative id
    (fun c => { c with
      status := .generating_full,
      variants := c.variants.map (fun p => (p.1, { p.2 with isGenerating := true })) }) s

/-- Per-ratio success update of the approval fan-out (same shape as
`regenerateSuccess`). -/
def fullGenSuccess (id ratio url : String) (s : List AdCreative) :
    List AdCreative :=
  updateCreative id
    (fun c =>
      { c with
        variants := recUpdate c.variants ratio
          (variantAppendSuccess ratio url) })
    s

/-- Final `setAdCreatives` of `handleApproveCreative` after `Promise.all`. -/
def finishApprove (id : String) (s : List AdCreative) : List AdCreative :=
  updateCreative id (fun c => { c with status := .completed }) s

/-- How one settled full-quality call is applied to the collection:
the success branch appends to the ratio's history, the catch branch only
clears that ratio's busy flag. -/
def applySettle (id : String) (outcomes : String → Option String)
    (s : List AdCreative) (ratio : String) : List AdCreative :=
  match outcomes ratio with
  | some url => fullGenSuccess id ratio url s
  | none => clearBusy id ratio s

/-- Handler `handleApproveCreative(creativeId)`.  Argument `outcomes` gives each ratio's
remote result; `settleOrder` is the order in which the parallel promises
settle (the code applies each result keyed by its own ratio, in settlement
order).  Returns the issued full-quality calls and the final collection. -/
def handleApproveCreative (id : String) (outcomes : String → Option String)
    (settleOrder : List String) (s : List AdCreative) :
    List GenCall × List AdCreative :=
  match getCreative s id with
  | none => ([], s)
  | some c =>
    let calls := c.variants.map
      (fun p => GenCall.mk .full id p.1 p.2.imagePrompt c.imageSize)
    let s1 := approveStart id s
    let s2 := settleOrder.foldl (applySettle id outcomes) s1
    (calls, finishApprove id s2)

/-! ## Assistant tool-call loop (`src/components/InteractiveAssistant.tsx`) -/
/-- Arguments of the single declared tool `update_form_fields`
(`updateFormFunction` in `geminiService.ts`): four optional string fields. -/
structure UpdateArgs where
  objective : Option String := none
  audienceAction : Option String := none
  keyMessage : Option String := none
  context : Option String := none
  deriving DecidableEq, Repr

/-- One tool invocation returned by the backend. -/
structure FunctionCall where
  id : Option String
  name : String
  args : UpdateArgs
  deriving DecidableEq, Repr

/-- The synthetic result sent back for one executed invocation. -/
structure FunctionResponse where
  id : Option String
  name : String
  result : String
  deriving DecidableEq, Repr

/-- What the conversational backend returns for one `sendMessage`. -/
structure ChatResponse where
  text : Option String
  functionCalls : List FunctionCall
  deriving DecidableEq, Repr

/-- One pass of the body of `handleSendMessage`'s `while` loop: collect the
`update_form_fields` invocations, apply each one's args to the form
(`onUpdateFields`), and build the synthetic function responses. -/
def collectFunctionResponses (calls : List FunctionCall) :
    List FunctionResponse :=
  calls.filterMap (fun call =>
    if call.name = "update_form_fields" then
      some ⟨call.id, call.name, "success: fields updated in the interface"⟩
    else none)

/-- The field updates the loop body applies (the `onUpdateFields(args)`
calls), in order. -/
def appliedUpdates (calls : List FunctionCall) : List UpdateArgs :=
  calls.filterMap (fun call =>
    if call.name = "update_form_fields" then some call.args else none)

/-- The `while (functionCalls && functionCalls.length > 0)` loop of
`handleSendMessage`, instrumented with fuel.  The loop exits when the
response has no tool invocations, or when none of them is named
`update_form_fields` (then `functionResponses` is empty and `functionCalls`
is set to `undefined`); otherwise it sends the synthetic responses back to
the backend and continues with the new response.  The source has **no**
iteration bound, so the embedding counts iterations: `none` means the loop
is still running after `fuel` iterations.  The applied field updates are
accumulated for fidelity to the `onUpdateFields` side effect. -/
def runToolLoop (backend : List FunctionResponse → ChatResponse) :
    Nat → ChatResponse → List UpdateArgs → Option (ChatResponse × List UpdateArgs)
  | 0, _, _ => none
  | fuel + 1, resp, updates =>
    if resp.functionCalls.isEmpty then some (resp, updates)
    else
      let frs := collectFunctionResponses resp.functionCalls
      let updates := updates ++ appliedUpdates resp.functionCalls
      if frs.isEmpty then some (resp, updates)
      else runToolLoop backend fuel (backend frs) updates

/-- A backend that answers every message with one more
`update_form_fields` tool invocation — the adversarial backend of the
spec's loop-termination test. -/
def alwaysToolBackend : List FunctionResponse → ChatResponse :=
  fun _ => ⟨none, [⟨some "call-1", "update_form_fields", {}⟩]⟩

/-! ## Import migration (`handleImport` in `App.tsx`) -/
/-- The single embedded image of the pre-history schema (`v.image`); old
images carry no `isPreview` flag (the migration adds `isPreview: false`). -/
structure LegacyImage where
  url : String
  aspectRatio : String
  deriving DecidableEq, Repr

/-- A variant as it appears in an imported snapshot: `image` and `history`
may each be absent. -/
structure RawVariant where
  aspectRatio : String
  imagePrompt : String
  image : Option LegacyImage
  history : Option (List AdImage)
  currentHistoryIndex : Int
  isGenerating : Bool
  deriving DecidableEq, Repr

/-- A creative as it appears in an imported snapshot: `status` may be
absent. -/
structure RawCreative where
  id : String
  title : String
  subtitle : String
  rationale : String
  variants : List (String × RawVariant)
  activeVariant : String
  imageSize : String
  status : Option CreativeStatus
  deriving DecidableEq, Repr

/-- The per-variant migration of `handleImport`:
`if (v.image && (!v.history || v.history.length === 0))` builds a one-entry
history from the embedded image (with `isPreview: false`) and cursor `0`;
`else if (!v.history)` yields an empty history with cursor `-1`;
otherwise the variant is kept as is. -/
def migrateVariant (v : RawVariant) : AdVariant :=
  match v.image, v.history with
  | some img, none =>
    ⟨v.aspectRatio, v.imagePrompt, [⟨img.url, img.aspectRatio, false⟩], 0,
      v.isGenerating⟩
  | some img, some [] =>
    ⟨v.aspectRatio, v.imagePrompt, [⟨img.url, img.aspectRatio, false⟩], 0,
      v.isGenerating⟩
  | none, none =>
    ⟨v.aspectRatio, v.imagePrompt, [], -1, v.isGenerating⟩
  | _, some hist =>
    ⟨v.aspectRatio, v.imagePrompt, hist, v.currentHistoryIndex,
      v.isGenerating⟩

/-- The per-creative migration of `handleImport`: migrate every variant and
default a missing `status` to `'completed'`. -/
def migrateCreative (c : RawCreative) : AdCreative :=
  ⟨c.id, c.title, c.subtitle, c.rationale,
    c.variants.map (fun p => (p.1, migrateVariant p.2)),
    c.activeVariant, c.imageSize, c.status.getD .completed⟩

/-! ## "Generate More" (`handleGenerateMore` in `App.tsx`)

Creative identifiers are template literals over `Date.now()` and the batch
index: `` `${Date.now()}-${index}` `` for the initial batch and
`` `${Date.now()}-${index}-added` `` for every "Generate More" batch.  The
decimal rendering of a JS integer is `Nat.repr`.  The decoding lemmas below
recover the numeric components from the rendered id strings. -/
/-- Numeric value of a decimal digit character. -/
def decDigit (c : Char) : Nat := c.toNat - 48

/-- Decimal value of a digit string. -/
def decValue (l : List Char) : Nat := l.foldl (fun a c => 10 * a + decDigit c) 0

/-- Id `` `${Date.now()}-${index}` `` of a creative of the initial batch
(`handleGenerateIdeas`), at timestamp `t` and batch index `i`. -/
def mkInitialCreativeId (t i : Nat) : String :=
  Nat.repr t ++ "-" ++ Nat.repr i

/-- Id `` `${Date.now()}-${index}-added` `` of a creative added by
`handleGenerateMore` ("Unique ID suffix"). -/
def mkAddedCreativeId (t i : Nat) : String :=
  Nat.repr t ++ "-" ++ Nat.repr i ++ "-added"

/-- Structure `AdCreativeText` from `src/types.ts`: one planned concept, with one
prompt per requested ratio. -/
structure ConceptText where
  title : String
  subtitle : String
  rationale : String
  variantPrompts : List (String × String)
  deriving DecidableEq, Repr

/-- Lookup `tc.variantPrompts[ratio]`. -/
def promptFor : List (String × String) → String → Option String
  | [], _ => none
  | p :: m, k => if p.1 = k then some p.2 else promptFor m k

/-- The fresh `AdCreative` built by `handleGenerateMore` for concept `tc` at
batch index `i`: empty histories, sentinel cursor, primary ratio marked as
generating the preview, status `'generating_preview'`. -/
def mkAddedCreative (t : Nat) (aspectRatios : List String)
    (imageSize : String) (i : Nat) (tc : ConceptText) : AdCreative :=
  let primaryRatio := aspectRatios.headD ""
  { id := mkAddedCreativeId t i,
    title := tc.title,
    subtitle := if tc.subtitle = "" then tc.rationale else tc.subtitle,
    rationale := tc.rationale,
    variants := aspectRatios.map (fun ratio =>
      (ratio, { aspectRatio := ratio,
                imagePrompt :=
                  (promptFor tc.variantPrompts ratio).getD
                    ("Error: No prompt for " ++ ratio),
                isGenerating := ratio = primaryRatio,
                history := [],
                currentHistoryIndex := -1 })),
    activeVariant := primaryRatio,
    imageSize := imageSize,
    status := .generating_preview }

/-- The `setAdCreatives(prev => prev ? [...prev, ...newCreatives] :
newCreatives)` step of `handleGenerateMore`: the planned concepts are turned
into fresh creatives and appended after every existing creative.  `t` is the
`Date.now()` timestamp of the batch. -/
def handleGenerateMoreAppend (t : Nat) (aspectRatios : List String)
    (imageSize : String) (textCreatives : List ConceptText)
    (prev : List AdCreative) : List AdCreative :=
  prev ++ textCreatives.enum.map
    (fun p => mkAddedCreative t aspectRatios imageSize p.1 p.2)

/-- The concrete session used to witness the commutation theorem. -/
def c7Variant (r : String) : AdVariant := ⟨r, "p", [], -1, true⟩

/-- A one-creative session with two ratio variants. -/
def c7Session : List AdCreative :=
  [⟨"c1", "T", "S", "R", [("1:1", c7Variant "1:1"), ("9:16", c7Variant "9:16")],
    "1:1", "1K", .generating_full⟩]

/-! ## The approval fan-out -/
/-- Net effect of one settled full-quality call on its own variant. -/
def settleResult (outcomes : String → Option String) (r : String)
    (v : AdVariant) : AdVariant :=
  match outcomes r with
  | some url => variantAppendSuccess r url v
  | none => { v with isGenerating := false }

/-- Concrete creative used to witness the approval fan-out. -/
def c2Creative : AdCreative :=
  ⟨"c1", "T", "S", "R",
    [("1:1", ⟨"1:1", "pA", [], -1, false⟩),
     ("9:16", ⟨"9:16", "pB", [], -1, false⟩)],
    "1:1", "1K", .preview_ready⟩

/-- Concrete session used to witness the approval fan-out. -/
def c2Session : List AdCreative := [c2Creative]

/-- Outcome assignment where the `1:1` call succeeds and the `9:16` call
fails. -/
def c2Outcomes : String → Option String :=
  fun r => if r = "1:1" then some "u1" else none

/-! ## Sequences of successful Regenerate/Edit calls on one variant -/
/-- One user call on a single `(creative, ratio)` lane, with the remote
result it will receive. -/
inductive VarOp where
  | regen (newPrompt newImageSize url : String)
  | edit (editPrompt imageSize url : String)
  deriving DecidableEq, Repr

/-- Run one call (with a successful remote outcome) through its handler. -/
def runVarOpSuccess (id ratio : String) :
    VarOp → List AdCreative → Option (List GenCall × List AdCreative)
  | .regen p sz url, s => runRegenerate id ratio p sz (some url) s
  | .edit ep sz url, s => runEdit id ratio ep sz (some url) s

/-- A *successful* call: the handler actually issued its remote call (none
of the fail-fast guards fired) and the success branch ran. -/
def runSuccessfulOp (id ratio : String) (op : VarOp) (s : List AdCreative) :
    Option (List AdCreative) :=
  match runVarOpSuccess id ratio op s with
  | some (calls, s') => if calls.isEmpty then none else some s'
  | none => none

/-- A sequence of successful Regenerate/Edit calls on one variant. -/
def runSuccessfulOps (id ratio : String) :
    List VarOp → List AdCreative → Option (List AdCreative)
  | [], s => some s
  | op :: ops, s =>
    (runSuccessfulOp id ratio op s).bind (runSuccessfulOps id ratio ops)

/-- Concrete variant used to witness the history-growth theorem. -/
def c1Variant : AdVariant :=
  ⟨"1:1", "p0", [⟨"data:image/png;base64,AAA", "1:1", false⟩], 0, false⟩

/-- Concrete session used to witness the history-growth theorem. -/
def c1Session : List AdCreative :=
  [⟨"c1", "T", "S", "R", [("1:1", c1Variant)], "1:1", "1K", .completed⟩]

/-- One successful Regenerate followed by one successful Edit. -/
def c1Ops : List VarOp :=
  [.regen "p1" "2K" "data:image/png;base64,BBB",
   .edit "make it red" "2K" "data:image/png;base64,CCC"]

/-- The session after the two successful calls. -/
def c1Final : List AdCreative :=
  (runSuccessfulOps "c1" "1:1" c1Ops c1Session).getD []

/-! ## The busy flag as a mutual-exclusion gate -/
/-- A variant that is busy (a call in flight) with a selected image. -/
def c4BusyVariant : AdVariant :=
  ⟨"1:1", "p", [⟨"data:image/png;base64,AAA", "1:1", false⟩], 0, true⟩

/-- A creative holding the busy variant. -/
def c4Creative : AdCreative :=
  ⟨"c1", "T", "S", "R", [("1:1", c4BusyVariant)], "1:1", "1K", .completed⟩

/-- The session for the mutual-exclusion claim. -/
def c4Session : List AdCreative := [c4Creative]

/-- Condition `disabled={activeVariant.isGenerating}` on the Regenerate button of
`AdDisplay.tsx`. -/
def regenerateControlDisabled (v : AdVariant) : Bool := v.isGenerating

/-- Condition `disabled={activeVariant.isGenerating || !editPrompt.trim() ||
!currentImage}` on the Edit button of `AdDisplay.tsx` (an all-whitespace
prompt is falsy after `trim()`). -/
def editControlDisabled (v : AdVariant) (editPrompt : String) : Bool :=
  v.isGenerating || editPrompt.data.all Char.isWhitespace
    || (currentImage v).isNone

/-! ## The cursor invariant -/
/-- The spec's VersionHistory invariant: the cursor is a valid index, or the
`-1` sentinel exactly when the history is empty. -/
def cursorInv (v : AdVariant) : Prop :=
  (0 ≤ v.currentHistoryIndex ∧
    v.currentHistoryIndex < (v.history.length : Int)) ∨
  (v.currentHistoryIndex = -1 ∧ v.history = [])

instance (v : AdVariant) : Decidable (cursorInv v) := by
  unfold cursorInv
  infer_instance

/-- An empty-history variant with the sentinel cursor. -/
def c5Variant : AdVariant := ⟨"1:1", "p", [], -1, false⟩

/-- The session for the cursor-invariant claim. -/
def c5Session : List AdCreative :=
  [⟨"c1", "T", "S", "R", [("1:1", c5Variant)], "1:1", "1K", .preview_ready⟩]

/-- A two-entry history with the cursor on the second entry. -/
def c5FullVariant : AdVariant :=
  ⟨"1:1", "p", [⟨"u0", "1:1", true⟩, ⟨"u1", "1:1", false⟩], 1, false⟩

/-! ## Failed Regenerate -/
/-- A 1K-quality creative used for the failed-regenerate claims. -/
def c6Creative : AdCreative :=
  ⟨"c1", "T", "S", "R",
    [("1:1", ⟨"1:1", "p", [⟨"u0", "1:1", false⟩], 0, false⟩)],
    "1:1", "1K", .completed⟩

/-- The session for the failed-regenerate claims. -/
def c6Session : List AdCreative := [c6Creative]

/-- A legacy variant with only an embedded image. -/
def c8LegacyVariant : RawVariant :=
  ⟨"1:1", "p", some ⟨"u-old", "1:1"⟩, none, 0, false⟩

/-- A legacy variant with neither image nor history. -/
def c8EmptyVariant : RawVariant :=
  ⟨"9:16", "p", none, none, 0, false⟩

/-- A legacy creative without a `status` field. -/
def c8LegacyCreative : RawCreative :=
  ⟨"c1", "T", "S", "R",
    [("1:1", c8LegacyVariant), ("9:16", c8EmptyVariant)], "1:1", "1K", none⟩

/-! ## "Generate More" id freshness -/
/-- A creative already in the collection whose id happens to be the added-id
string for timestamp `5`, index `0` (for example from an imported
snapshot, since importing performs no id validation). -/
def c9ExistingCreative : AdCreative :=
  ⟨"5-0-added", "T", "S", "R", [("1:1", ⟨"1:1", "p", [], -1, false⟩)],
    "1:1", "1K", .completed⟩

/-- The pre-existing collection for the Generate More claim. -/
def c9Prev : List AdCreative := [c9ExistingCreative]

/-- One planned concept for the Generate More claim. -/
def c9Concept : ConceptText := ⟨"T2", "S2", "R2", [("1:1", "p2")]⟩

theorem recGet_recUpdate_self {m : List (String × AdVariant)} {k : String}
    {g : AdVariant → AdVariant} {v : AdVariant} (h : recGet m k = some v) :
    recGet (recUpdate m k g) k = some (g v) := by
  induction m with
  | nil => simp [recGet] at h
  | cons p m ih =>
    by_cases hk : p.1 = k
    · simp [recGet, hk] at h
      simp [recGet, recUpdate, hk, h]
    · simp [recGet, hk] at h
      simpa [recGet, recUpdate, hk] using ih h

theorem recGet_recUpdate_ne {m : List (String × AdVariant)} {k k' : String}
    {g : AdVariant → AdVariant} (h : k' ≠ k) :
    recGet (recUpdate m k g) k' = recGet m k' := by
  induction m with
  | nil => rfl
  | cons p m ih =>
    have hkk : ¬ k = k' := fun hh => h hh.symm
    by_cases hk : p.1 = k
    · simp [recGet, recUpdate, hk, hkk]
      simpa [recUpdate] using ih
    · by_cases hk' : p.1 = k'
      · simp [recGet, recUpdate, hk, hk', h]
      · simp [recGet, recUpdate, hk, hk', h]
        simpa [recUpdate] using ih

theorem recGet_map_snd {m : List (String × AdVariant)} {k : String}
    (g : AdVariant → AdVariant) :
    recGet (m.map (fun p => (p.1, g p.2))) k = (recGet m k).map g := by
  induction m with
  | nil => rfl
  | cons p m ih =>
    by_cases hk : p.1 = k
    · simp [recGet, hk]
    · simp [recGet, hk]
      exact ih

/-- Applying `updateCreative` with an id-preserving `f` commutes with the creative
lookup for the updated id. -/
theorem getCreative_updateCreative_self {s : List AdCreative} {id : String}
    {f : AdCreative → AdCreative} (hf : ∀ c, (f c).id = c.id) :
    getCreative (updateCreative id f s) id = (getCreative s id).map f := by
  induction s with
  | nil => rfl
  | cons c s ih =>
    by_cases hc : c.id = id
    · simp [getCreative, updateCreative, hc, hf]
    · simp [getCreative, updateCreative, hc]
      simpa [updateCreative] using ih

/-- Applying `updateCreative` with an id-preserving `f` does not affect lookups of a
different id. -/
theorem getCreative_updateCreative_ne {s : List AdCreative} {id id' : String}
    {f : AdCreative → AdCreative} (hf : ∀ c, (f c).id = c.id) (h : id' ≠ id) :
    getCreative (updateCreative id f s) id' = getCreative s id' := by
  induction s with
  | nil => rfl
  | cons c s ih =>
    have hii : ¬ id = id' := fun hh => h hh.symm
    by_cases hc : c.id = id
    · simp [getCreative, updateCreative, hc, hii, hf]
      simpa [updateCreative] using ih
    · by_cases hc' : c.id = id'
      · simp [getCreative, updateCreative, hc, hc', h]
      · simp [getCreative, updateCreative, hc, hc', h]
        simpa [updateCreative] using ih

/-- Creatives whose id differs from the updated one are left untouched,
positionally. -/
theorem updateCreative_getElem?_ne {s : List AdCreative} {id : String}
    {f : AdCreative → AdCreative} {i : Nat} {c : AdCreative}
    (hget : s[i]? = some c) (hne : c.id ≠ id) :
    (updateCreative id f s)[i]? = some c := by
  simp [updateCreative, List.getElem?_map, hget, hne]

theorem toDigitsCore_append (f n : Nat) (ds : List Char) :
    Nat.toDigitsCore 10 f n ds = Nat.toDigitsCore 10 f n [] ++ ds := by
  induction f generalizing n ds with
  | zero => simp [Nat.toDigitsCore]
  | succ f ih =>
    simp only [Nat.toDigitsCore]
    by_cases h : n / 10 = 0
    · simp [h]
    · simp only [h, if_false]
      rw [ih (n / 10) (Nat.digitChar (n % 10) :: ds),
        ih (n / 10) [Nat.digitChar (n % 10)]]
      simp

theorem decDigit_digitChar {d : Nat} (h : d < 10) :
    decDigit (Nat.digitChar d) = d := by
  interval_cases d <;> decide

theorem decValue_append_singleton (l : List Char) (c : Char) :
    decValue (l ++ [c]) = 10 * decValue l + decDigit c := by
  simp [decValue, List.foldl_append]

theorem decValue_toDigitsCore : ∀ f n, n < f →
    decValue (Nat.toDigitsCore 10 f n []) = n := by
  intro f
  induction f with
  | zero => intro n h; omega
  | succ f ih =>
    intro n h
    simp only [Nat.toDigitsCore]
    by_cases h0 : n / 10 = 0
    · have hn : n < 10 := (Nat.div_eq_zero_iff (by norm_num)).mp h0
      simp only [h0, if_true, decValue, List.foldl]
      rw [decDigit_digitChar (Nat.mod_lt n (by norm_num) : n % 10 < 10)]
      omega
    · simp only [h0, if_false]
      rw [toDigitsCore_append, decValue_append_singleton,
        decDigit_digitChar (Nat.mod_lt n (by norm_num) : n % 10 < 10)]
      have h1 : 0 < n := by
        rcases Nat.eq_zero_or_pos n with h2 | h2
        · exact absurd (by simp [h2]) h0
        · exact h2
      have h2 : n / 10 < n := Nat.div_lt_self h1 (by norm_num)
      rw [ih (n / 10) (by omega)]
      omega

/-- Decoding `decValue` is a left inverse of the decimal rendering. -/
theorem decValue_repr (n : Nat) : decValue (Nat.repr n).data = n :=
  decValue_toDigitsCore (n + 1) n (Nat.lt_succ_self n)

theorem repr_inj {a b : Nat} (h : Nat.repr a = Nat.repr b) : a = b := by
  have := congrArg (fun s => decValue s.data) h
  simpa [decValue_repr] using this

theorem toDigitsCore_getLast? (f n : Nat) :
    (Nat.toDigitsCore 10 (f + 1) n []).getLast?
      = some (Nat.digitChar (n % 10)) := by
  simp only [Nat.toDigitsCore]
  by_cases h : n / 10 = 0
  · simp [h]
  · simp only [h, if_false]
    rw [toDigitsCore_append]
    exact List.getLast?_concat _

/-- A decimal rendering always ends in a digit character. -/
theorem repr_data_getLast? (n : Nat) :
    (Nat.repr n).data.getLast? = some (Nat.digitChar (n % 10)) :=
  toDigitsCore_getLast? n n

theorem digitChar_ne_d {d : Nat} (h : d < 10) : Nat.digitChar d ≠ 'd' := by
  interval_cases d <;> decide

/-- An added-batch id never collides with an initial-batch id: the former
ends in `'d'`, the latter in a decimal digit. -/
theorem mkAddedCreativeId_ne_initial (t i t' j : Nat) :
    mkAddedCreativeId t i ≠ mkInitialCreativeId t' j := by
  intro h
  have hd := congrArg (fun s => s.data.getLast?) h
  simp only [mkAddedCreativeId, mkInitialCreativeId, String.data_append] at hd
  have hj := repr_data_getLast? j
  simp only [List.getLast?_append, hj, List.getLast?_cons_cons,
    List.getLast?_singleton, List.getLast?_nil, Option.or] at hd
  have : ('d' : Char) = Nat.digitChar (j % 10) := by
    simpa using hd
  exact digitChar_ne_d (Nat.mod_lt j (by norm_num)) this.symm

/-- Within one batch (one `Date.now()` value), added ids are injective in
the batch index. -/
theorem mkAddedCreativeId_inj_right {t i j : Nat}
    (h : mkAddedCreativeId t i = mkAddedCreativeId t j) : i = j := by
  have hd := congrArg String.data h
  simp only [mkAddedCreativeId, String.data_append, List.append_assoc] at hd
  have h1 := List.append_cancel_left hd
  have h3 : (Nat.repr i).data ++ ("-added" : String).data
      = (Nat.repr j).data ++ ("-added" : String).data := by
    simpa using h1
  have h4 : (Nat.repr i).data = (Nat.repr j).data :=
    List.append_cancel_right h3
  have h5 : decValue (Nat.repr i).data = decValue (Nat.repr j).data := by
    rw [h4]
  simpa [decValue_repr] using h5

/-! ## Generic lemmas about the keyed-merge update pattern -/
theorem recGet_recUpdate (m : List (String × AdVariant)) (k : String)
    (g : AdVariant → AdVariant) :
    recGet (recUpdate m k g) k = (recGet m k).map g := by
  induction m with
  | nil => rfl
  | cons p m ih =>
    by_cases hk : p.1 = k
    · simp [recGet, recUpdate, hk]
    · simp [recGet, recUpdate, hk]
      simpa [recUpdate] using ih

/-- A key with a stored value is among the map's keys. -/
theorem mem_keys_of_recGet {m : List (String × AdVariant)} {k : String}
    {v : AdVariant} (h : recGet m k = some v) : k ∈ m.map Prod.fst := by
  induction m with
  | nil => simp [recGet] at h
  | cons p m ih =>
    by_cases hk : p.1 = k
    · simp [hk]
    · simp [recGet, hk] at h
      simp [ih h]

/-- Variant-level view of an update that rewrites the target creative's
variant map pointwise at `ratio` (and possibly other creative fields). -/
theorem getVariant_update_self {s : List AdCreative} {id ratio : String}
    {f : AdCreative → AdCreative} {g : AdVariant → AdVariant}
    (hf : ∀ c, (f c).id = c.id)
    (hv : ∀ c, recGet (f c).variants ratio = (recGet c.variants ratio).map g) :
    getVariant (updateCreative id f s) id ratio
      = (getVariant s id ratio).map g := by
  unfold getVariant
  rw [getCreative_updateCreative_self hf]
  cases getCreative s id with
  | none => rfl
  | some c => simp [hv c]

theorem getVariant_update_ne_ratio {s : List AdCreative} {id ratio : String}
    {f : AdCreative → AdCreative}
    (hf : ∀ c, (f c).id = c.id)
    (hv : ∀ c, recGet (f c).variants ratio = recGet c.variants ratio) :
    getVariant (updateCreative id f s) id ratio = getVariant s id ratio := by
  unfold getVariant
  rw [getCreative_updateCreative_self hf]
  cases getCreative s id with
  | none => rfl
  | some c => simp [hv c]

theorem getVariant_update_ne_id {s : List AdCreative} {id id' ratio : String}
    {f : AdCreative → AdCreative}
    (hf : ∀ c, (f c).id = c.id) (h : id' ≠ id) :
    getVariant (updateCreative id f s) id' ratio = getVariant s id' ratio := by
  unfold getVariant
  rw [getCreative_updateCreative_ne hf h]

/-- Two keyed merges on the same id fuse. -/
theorem updateCreative_updateCreative {s : List AdCreative} {id : String}
    {f g : AdCreative → AdCreative} (hg : ∀ c, (g c).id = c.id) :
    updateCreative id f (updateCreative id g s)
      = updateCreative id (fun c => f (g c)) s := by
  unfold updateCreative
  rw [List.map_map]
  apply List.map_congr_left
  intro c _
  by_cases hc : c.id = id
  · simp [hc, hg]
  · simp [hc]

/-- Keyed merges agree when their per-creative updates agree. -/
theorem updateCreative_congr {s : List AdCreative} {id : String}
    {f g : AdCreative → AdCreative} (h : ∀ c, f c = g c) :
    updateCreative id f s = updateCreative id g s := by
  unfold updateCreative
  apply List.map_congr_left
  intro c _
  by_cases hc : c.id = id <;> simp [hc, h]

/-- In-place record updates at distinct keys commute. -/
theorem recUpdate_comm {m : List (String × AdVariant)} {a b : String}
    {ga gb : AdVariant → AdVariant} (hab : a ≠ b) :
    recUpdate (recUpdate m b gb) a ga = recUpdate (recUpdate m a ga) b gb := by
  unfold recUpdate
  rw [List.map_map, List.map_map]
  apply List.map_congr_left
  intro p _
  have hab' : ¬ a = b := hab
  have hba : ¬ b = a := fun hh => hab hh.symm
  by_cases hpa : p.1 = a
  · have hpb : ¬ p.1 = b := by rw [hpa]; exact hab'
    simp [Function.comp, hpa, hpb, hab', hba]
  · by_cases hpb : p.1 = b
    · simp [Function.comp, hpa, hpb, hab', hba]
    · simp [Function.comp, hpa, hpb]

/-! ## Per-operation views -/
theorem getVariant_regenerateStart (s : List AdCreative)
    (id ratio p sz : String) :
    getVariant (regenerateStart id ratio p sz s) id ratio
      = (getVariant s id ratio).map
          (fun v => { v with imagePrompt := p, isGenerating := true }) :=
  getVariant_update_self (fun _ => rfl)
    (fun c => by simp [recGet_recUpdate])

theorem getVariant_regenerateSuccess (s : List AdCreative)
    (id ratio url : String) :
    getVariant (regenerateSuccess id ratio url s) id ratio
      = (getVariant s id ratio).map (variantAppendSuccess ratio url) :=
  getVariant_update_self (fun _ => rfl)
    (fun c => by simp [recGet_recUpdate])

theorem getVariant_editStart (s : List AdCreative) (id ratio : String) :
    getVariant (editStart id ratio s) id ratio
      = (getVariant s id ratio).map (fun v => { v with isGenerating := true }) :=
  getVariant_update_self (fun _ => rfl)
    (fun c => by simp [recGet_recUpdate])

theorem getVariant_editSuccess (s : List AdCreative) (id ratio url : String) :
    getVariant (editSuccess id ratio url s) id ratio
      = (getVariant s id ratio).map (variantAppendSuccess ratio url) :=
  getVariant_update_self (fun _ => rfl)
    (fun c => by simp [recGet_recUpdate])

theorem getVariant_clearBusy (s : List AdCreative) (id ratio : String) :
    getVariant (clearBusy id ratio s) id ratio
      = (getVariant s id ratio).map (fun v => { v with isGenerating := false }) :=
  getVariant_update_self (fun _ => rfl)
    (fun c => by simp [recGet_recUpdate])

theorem getVariant_fullGenSuccess (s : List AdCreative)
    (id ratio url : String) :
    getVariant (fullGenSuccess id ratio url s) id ratio
      = (getVariant s id ratio).map (variantAppendSuccess ratio url) :=
  getVariant_update_self (fun _ => rfl)
    (fun c => by simp [recGet_recUpdate])

theorem getVariant_navigateHistory (s : List AdCreative) (id ratio : String)
    (dir : NavDir) :
    getVariant (navigateHistory id ratio dir s) id ratio
      = (getVariant s id ratio).map
          (fun v => { v with currentHistoryIndex := navIndex dir v }) :=
  getVariant_update_self (fun _ => rfl)
    (fun c => by simp [recGet_recUpdate])

theorem getVariant_approveStart (s : List AdCreative) (id ratio : String) :
    getVariant (approveStart id s) id ratio
      = (getVariant s id ratio).map (fun v => { v with isGenerating := true }) :=
  getVariant_update_self (fun _ => rfl)
    (fun c => by
      exact recGet_map_snd (fun v => { v with isGenerating := true }))

theorem getVariant_finishApprove (s : List AdCreative) (id ratio : String) :
    getVariant (finishApprove id s) id ratio = getVariant s id ratio :=
  getVariant_update_ne_ratio (fun _ => rfl) (fun _ => rfl)  -- status-only update

theorem getVariant_regenerateStart_ne (s : List AdCreative)
    (id ratio r p sz : String) (h : r ≠ ratio) :
    getVariant (regenerateStart id ratio p sz s) id r = getVariant s id r :=
  getVariant_update_ne_ratio (fun _ => rfl)
    (fun _ => by simp [recGet_recUpdate_ne h])

theorem getVariant_clearBusy_ne (s : List AdCreative) (id ratio r : String)
    (h : r ≠ ratio) :
    getVariant (clearBusy id ratio s) id r = getVariant s id r :=
  getVariant_update_ne_ratio (fun _ => rfl)
    (fun _ => by simp [recGet_recUpdate_ne h])

theorem getVariant_fullGenSuccess_ne (s : List AdCreative)
    (id ratio r url : String) (h : r ≠ ratio) :
    getVariant (fullGenSuccess id ratio url s) id r = getVariant s id r :=
  getVariant_update_ne_ratio (fun _ => rfl)
    (fun _ => by simp [recGet_recUpdate_ne h])

/-- Two id-preserving keyed merges on the same id commute when their
per-creative updates commute. -/
theorem updateCreative_comm {s : List AdCreative} {id : String}
    {f g : AdCreative → AdCreative}
    (hf : ∀ c, (f c).id = c.id) (hg : ∀ c, (g c).id = c.id)
    (hcomm : ∀ c, f (g c) = g (f c)) :
    updateCreative id f (updateCreative id g s)
      = updateCreative id g (updateCreative id f s) := by
  unfold updateCreative
  rw [List.map_map, List.map_map]
  apply List.map_congr_left
  intro c _
  simp only [Function.comp]
  by_cases hc : c.id = id
  · rw [if_pos hc, if_pos hc, if_pos (by rw [hg]; exact hc),
      if_pos (by rw [hf]; exact hc)]
    exact hcomm c
  · simp only [if_neg hc]

/-- C7: Success updates for two distinct ratios of the same Creative
commute: the final session state is the same whichever result settles
first, and both Variants' histories end up holding their own result. -/
theorem success_updates_commute
    (s : List AdCreative) (id A B imgA imgB : String)
    (vA vB : AdVariant) (hAB : A ≠ B)
    (hA : getVariant s id A = some vA) (hB : getVariant s id B = some vB) :
    fullGenSuccess id A imgA (fullGenSuccess id B imgB s)
      = fullGenSuccess id B imgB (fullGenSuccess id A imgA s) ∧
    (∃ vA', getVariant (fullGenSuccess id A imgA (fullGenSuccess id B imgB s))
          id A = some vA' ∧
        vA'.history = vA.history ++ [⟨imgA, A, false⟩] ∧
        (⟨imgA, A, false⟩ : AdImage) ∈ vA'.history) ∧
    (∃ vB', getVariant (fullGenSuccess id A imgA (fullGenSuccess id B imgB s))
          id B = some vB' ∧
        vB'.history = vB.history ++ [⟨imgB, B, false⟩] ∧
        (⟨imgB, B, false⟩ : AdImage) ∈ vB'.history) := by
  have hBA : B ≠ A := fun hh => hAB hh.symm
  refine ⟨?_, ?_, ?_⟩
  · unfold fullGenSuccess
    apply updateCreative_comm
    · intro c; rfl
    · intro c; rfl
    · intro c
      simp only []
      rw [recUpdate_comm hAB]
  · rw [getVariant_fullGenSuccess, getVariant_fullGenSuccess_ne _ _ _ _ _ hAB,
      hA]
    exact ⟨_, rfl, rfl, by simp [variantAppendSuccess]⟩
  · rw [getVariant_fullGenSuccess_ne _ _ _ _ _ hBA, getVariant_fullGenSuccess,
      hB]
    exact ⟨_, rfl, rfl, by simp [variantAppendSuccess]⟩

/-- Witness for `success_updates_commute` at concrete inputs. -/
theorem success_updates_commute_witness :
    getVariant c7Session "c1" "1:1" = some (c7Variant "1:1") ∧
    fullGenSuccess "c1" "1:1" "uA" (fullGenSuccess "c1" "9:16" "uB" c7Session)
      = fullGenSuccess "c1" "9:16" "uB"
          (fullGenSuccess "c1" "1:1" "uA" c7Session) :=
  ⟨by decide,
    (success_updates_commute c7Session "c1" "1:1" "9:16" "uA" "uB"
      (c7Variant "1:1") (c7Variant "9:16") (by decide) (by decide)
      (by decide)).1⟩

theorem getVariant_applySettle_self (s : List AdCreative) (id : String)
    (outcomes : String → Option String) (r : String) :
    getVariant (applySettle id outcomes s r) id r
      = (getVariant s id r).map (settleResult outcomes r) := by
  unfold applySettle settleResult
  cases outcomes r with
  | some url => exact getVariant_fullGenSuccess s id r url
  | none => exact getVariant_clearBusy s id r

theorem getVariant_applySettle_ne (s : List AdCreative) (id : String)
    (outcomes : String → Option String) (r r' : String) (h : r' ≠ r) :
    getVariant (applySettle id outcomes s r) id r' = getVariant s id r' := by
  unfold applySettle
  cases outcomes r with
  | some url => exact getVariant_fullGenSuccess_ne s id r r' url h
  | none => exact getVariant_clearBusy_ne s id r r' h

theorem getVariant_foldl_applySettle_not_mem (id : String)
    (outcomes : String → Option String) (r : String) :
    ∀ (l : List String) (s : List AdCreative), r ∉ l →
      getVariant (l.foldl (applySettle id outcomes) s) id r
        = getVariant s id r := by
  intro l
  induction l with
  | nil => intro s _; rfl
  | cons x xs ih =>
    intro s hmem
    have hx : r ≠ x := fun hh => hmem (hh ▸ List.mem_cons_self x xs)
    have hxs : r ∉ xs := fun hh => hmem (List.mem_cons_of_mem x hh)
    simp only [List.foldl_cons]
    rw [ih _ hxs, getVariant_applySettle_ne _ _ _ _ _ hx]

/-- If the ratio appears exactly once in the settlement order, the fold
applies exactly its own settled result to its variant. -/
theorem getVariant_foldl_applySettle_once (id : String)
    (outcomes : String → Option String) (r : String) :
    ∀ (l : List String) (s : List AdCreative) (v : AdVariant),
      l.count r = 1 → getVariant s id r = some v →
      getVariant (l.foldl (applySettle id outcomes) s) id r
        = some (settleResult outcomes r v) := by
  intro l
  induction l with
  | nil => intro s v h _; simp at h
  | cons x xs ih =>
    intro s v hcount hv
    simp only [List.foldl_cons]
    by_cases hx : x = r
    · subst hx
      have hzero : xs.count x = 0 := by
        rw [List.count_cons] at hcount
        simpa using hcount
      have hnot : x ∉ xs := List.count_eq_zero.mp hzero
      rw [getVariant_foldl_applySettle_not_mem _ _ _ _ _ hnot,
        getVariant_applySettle_self, hv]
      rfl
    · have hrx : r ≠ x := fun hh => hx hh.symm
      have hcount' : xs.count r = 1 := by
        rw [List.count_cons] at hcount
        simpa [hx] using hcount
      rw [ih _ v hcount' (by rw [getVariant_applySettle_ne _ _ _ _ _ hrx]; exact hv)]

theorem getCreative_applySettle (s : List AdCreative) (id : String)
    (outcomes : String → Option String) (r : String) :
    (getCreative (applySettle id outcomes s r) id).isSome
      = (getCreative s id).isSome := by
  cases houtcome : outcomes r with
  | some url =>
    simp only [applySettle, houtcome]
    unfold fullGenSuccess
    rw [getCreative_updateCreative_self (by intro c; rfl)]
    cases getCreative s id <;> rfl
  | none =>
    simp only [applySettle, houtcome]
    unfold clearBusy
    rw [getCreative_updateCreative_self (by intro c; rfl)]
    cases getCreative s id <;> rfl

theorem getCreative_foldl_applySettle_isSome (id : String)
    (outcomes : String → Option String) :
    ∀ (l : List String) (s : List AdCreative),
      (getCreative s id).isSome = true →
      (getCreative (l.foldl (applySettle id outcomes) s) id).isSome = true := by
  intro l
  induction l with
  | nil => intro s h; exact h
  | cons x xs ih =>
    intro s h
    simp only [List.foldl_cons]
    exact ih _ (by rw [getCreative_applySettle]; exact h)

/-- C2: approving a Creative with `R` ratio keys marks every ratio's
variant busy, issues exactly `R` full-quality calls, lets every successful
call append its result to its own variant's history regardless of which
other calls fail, and finishes with the terminal `completed` status. -/
theorem approve_fanout (s : List AdCreative) (id : String)
    (outcomes : String → Option String) (settleOrder : List String)
    (c : AdCreative)
    (hc : getCreative s id = some c)
    (hnd : (c.variants.map Prod.fst).Nodup)
    (hperm : settleOrder.Perm (c.variants.map Prod.fst)) :
    (handleApproveCreative id outcomes settleOrder s).1.length
        = c.variants.length ∧
    (∀ call ∈ (handleApproveCreative id outcomes settleOrder s).1,
        call.kind = CallKind.full ∧ call.creativeId = id ∧
        call.imageSize = c.imageSize) ∧
    (∀ r v, recGet c.variants r = some v →
        getVariant (approveStart id s) id r
          = some { v with isGenerating := true }) ∧
    (∃ c₁, getCreative (approveStart id s) id = some c₁ ∧
        c₁.status = CreativeStatus.generating_full) ∧
    (∀ r v url, recGet c.variants r = some v → outcomes r = some url →
        ∃ v', getVariant (handleApproveCreative id outcomes settleOrder s).2
            id r = some v' ∧
          v'.history = v.history ++ [⟨url, r, false⟩] ∧
          v'.currentHistoryIndex = (v.history.length : Int) ∧
          v'.isGenerating = false) ∧
    (∀ r v, recGet c.variants r = some v → outcomes r = none →
        ∃ v', getVariant (handleApproveCreative id outcomes settleOrder s).2
            id r = some v' ∧
          v'.history = v.history ∧
          v'.currentHistoryIndex = v.currentHistoryIndex ∧
          v'.isGenerating = false) ∧
    (∃ c', getCreative (handleApproveCreative id outcomes settleOrder s).2 id
        = some c' ∧ c'.status = CreativeStatus.completed) := by
  have hbusy : ∀ r v, recGet c.variants r = some v →
      getVariant (approveStart id s) id r
        = some { v with isGenerating := true } := by
    intro r v hv
    rw [getVariant_approveStart]
    have hs : getVariant s id r = some v := by
      unfold getVariant
      rw [hc]
      exact hv
    rw [hs]
    rfl
  have hcount : ∀ r v, recGet c.variants r = some v →
      settleOrder.count r = 1 := by
    intro r v hv
    rw [hperm.count_eq r]
    exact List.count_eq_one_of_mem hnd (mem_keys_of_recGet hv)
  have hsettled : ∀ r v, recGet c.variants r = some v →
      getVariant
          (settleOrder.foldl (applySettle id outcomes) (approveStart id s))
          id r
        = some (settleResult outcomes r { v with isGenerating := true }) := by
    intro r v hv
    exact getVariant_foldl_applySettle_once id outcomes r settleOrder
      (approveStart id s) _ (hcount r v hv) (hbusy r v hv)
  refine ⟨?_, ?_, hbusy, ?_, ?_, ?_, ?_⟩
  · simp [handleApproveCreative, hc]
  · intro call hcall
    simp only [handleApproveCreative, hc] at hcall
    obtain ⟨p, _, rfl⟩ := List.mem_map.mp hcall
    exact ⟨rfl, rfl, rfl⟩
  · unfold approveStart
    rw [getCreative_updateCreative_self (by intro x; rfl), hc]
    exact ⟨_, rfl, rfl⟩
  · intro r v url hv hout
    simp only [handleApproveCreative, hc]
    rw [getVariant_finishApprove, hsettled r v hv]
    refine ⟨_, rfl, ?_, ?_, ?_⟩ <;>
      simp [settleResult, hout, variantAppendSuccess]
  · intro r v hv hout
    simp only [handleApproveCreative, hc]
    rw [getVariant_finishApprove, hsettled r v hv]
    refine ⟨_, rfl, ?_, ?_, ?_⟩ <;> simp [settleResult, hout]
  · simp only [handleApproveCreative, hc]
    have h1 : (getCreative (approveStart id s) id).isSome = true := by
      unfold approveStart
      rw [getCreative_updateCreative_self (by intro x; rfl), hc]
      rfl
    have h2 := getCreative_foldl_applySettle_isSome id outcomes settleOrder
      (approveStart id s) h1
    obtain ⟨c2, hc2⟩ := Option.isSome_iff_exists.mp h2
    unfold finishApprove
    rw [getCreative_updateCreative_self (by intro x; rfl), hc2]
    exact ⟨_, rfl, rfl⟩

/-- Witness for `approve_fanout` at concrete inputs (2 ratios, one failing
call, settlement order reversed). -/
theorem approve_fanout_witness :
    getCreative c2Session "c1" = some c2Creative ∧
    (handleApproveCreative "c1" c2Outcomes ["9:16", "1:1"] c2Session).1.length
        = 2 ∧
    (∃ c', getCreative
        (handleApproveCreative "c1" c2Outcomes ["9:16", "1:1"] c2Session).2
        "c1" = some c' ∧ c'.status = CreativeStatus.completed) := by
  have h := approve_fanout c2Session "c1" c2Outcomes ["9:16", "1:1"]
    c2Creative (by decide) (by decide) (by decide)
  exact ⟨by decide, h.1.trans (by decide), h.2.2.2.2.2.2⟩

/-- One successful call appends exactly one entry to the target variant's
history and parks the cursor on it. -/
theorem runSuccessfulOp_step {id ratio : String} {op : VarOp}
    {s s' : List AdCreative} {v : AdVariant}
    (hv : getVariant s id ratio = some v)
    (h : runSuccessfulOp id ratio op s = some s') :
    ∃ img v', getVariant s' id ratio = some v' ∧
      v'.history = v.history ++ [img] ∧
      v'.currentHistoryIndex = (v.history.length : Int) := by
  have hgc : ∃ c, getCreative s id = some c ∧ recGet c.variants ratio = some v := by
    unfold getVariant at hv
    cases hg : getCreative s id with
    | none => rw [hg] at hv; simp at hv
    | some c => rw [hg] at hv; exact ⟨c, rfl, hv⟩
  obtain ⟨c, hg, hrec⟩ := hgc
  cases op with
  | regen p sz url =>
    simp only [runSuccessfulOp, runVarOpSuccess, runRegenerate, hg, hrec] at h
    simp only [List.isEmpty, if_false] at h
    obtain rfl : regenerateSuccess id ratio url
        (regenerateStart id ratio p sz s) = s' := by
      simpa using h
    rw [getVariant_regenerateSuccess, getVariant_regenerateStart, hv]
    exact ⟨⟨url, ratio, false⟩, _, rfl, rfl, rfl⟩
  | edit ep sz url =>
    cases hci : currentImage v with
    | none =>
      simp only [runSuccessfulOp, runVarOpSuccess, runEdit, hg, hrec, hci] at h
      simp at h
    | some img0 =>
      cases hpd : parseDataUrl img0.url with
      | none =>
        simp only [runSuccessfulOp, runVarOpSuccess, runEdit, hg, hrec, hci,
          hpd] at h
        simp at h
      | some pd =>
        simp only [runSuccessfulOp, runVarOpSuccess, runEdit, hg, hrec, hci,
          hpd] at h
        simp only [List.isEmpty, if_false] at h
        obtain rfl : editSuccess id ratio url (editStart id ratio s) = s' := by
          simpa using h
        rw [getVariant_editSuccess, getVariant_editStart, hv]
        exact ⟨⟨url, ratio, false⟩, _, rfl, rfl, rfl⟩

/-- C1: a sequence of `N` successful Regenerate/Edit calls on one variant
grows its history by exactly `N` appended entries — the old entries survive
as a left segment, nothing is overwritten, reordered, or deleted — and for
`N ≥ 1` the cursor ends on the last-appended entry. -/
theorem variant_history_growth (id ratio : String) :
    ∀ (ops : List VarOp) (s : List AdCreative) (v : AdVariant)
      (s' : List AdCreative),
      getVariant s id ratio = some v →
      runSuccessfulOps id ratio ops s = some s' →
      ∃ v', getVariant s' id ratio = some v' ∧
        v'.history.length = v.history.length + ops.length ∧
        v'.history.take v.history.length = v.history ∧
        v'.currentHistoryIndex
          = (if ops.isEmpty then v.currentHistoryIndex
             else (v'.history.length : Int) - 1) := by
  intro ops
  induction ops with
  | nil =>
    intro s v s' hv h
    obtain rfl : s = s' := by simpa [runSuccessfulOps] using h
    exact ⟨v, hv, by simp, by simp, by simp⟩
  | cons op ops ih =>
    intro s v s' hv h
    simp only [runSuccessfulOps] at h
    obtain ⟨s1, h1, h2⟩ := Option.bind_eq_some.mp h
    obtain ⟨img, v1, hv1, hhist1, hcur1⟩ := runSuccessfulOp_step hv h1
    obtain ⟨v', hv', hlen, htake, hcur⟩ := ih s1 v1 s' hv1 h2
    refine ⟨v', hv', ?_, ?_, ?_⟩
    · rw [hlen, hhist1]
      simp [List.length_append]
      omega
    · have hle : v.history.length ≤ v1.history.length := by
        rw [hhist1]; simp
      have : v'.history.take v.history.length
          = (v'.history.take v1.history.length).take v.history.length := by
        rw [List.take_take, min_eq_left hle]
      rw [this, htake, hhist1]
      exact List.take_left v.history [img]
    · simp only [List.isEmpty_cons, Bool.false_eq_true, if_false]
      cases ops with
      | nil =>
        have hs1 : s1 = s' := by simpa [runSuccessfulOps] using h2
        subst hs1
        rw [hv1] at hv'
        have hveq : v1 = v' := by injection hv'
        subst hveq
        rw [hcur1, hhist1]
        simp only [List.length_append, List.length_singleton]
        omega
      | cons op2 ops2 =>
        simpa using hcur

/-- Witness for `variant_history_growth` at concrete inputs. -/
theorem variant_history_growth_witness :
    getVariant c1Session "c1" "1:1" = some c1Variant ∧
    runSuccessfulOps "c1" "1:1" c1Ops c1Session = some c1Final ∧
    (∃ v', getVariant c1Final "c1" "1:1" = some v' ∧
      v'.history.length = c1Variant.history.length + c1Ops.length ∧
      v'.history.take c1Variant.history.length = c1Variant.history ∧
      v'.currentHistoryIndex
        = (if c1Ops.isEmpty then c1Variant.currentHistoryIndex
           else (v'.history.length : Int) - 1)) :=
  ⟨by decide, by decide,
    variant_history_growth "c1" "1:1" c1Ops c1Session c1Variant c1Final
      (by decide) (by decide)⟩

/-- C3: against a backend that answers every message with one more
`update_form_fields` invocation, the `while` loop of `handleSendMessage`
never exits — for **every** iteration budget `fuel`, the loop is still
running after `fuel` iterations, so no fixed maximum number of automatic
iterations bounds it. -/
theorem tool_loop_unbounded (fuel : Nat) :
    ∀ updates, runToolLoop alwaysToolBackend fuel (alwaysToolBackend [])
      updates = none := by
  induction fuel with
  | zero => intro updates; rfl
  | succ fuel ih =>
    intro updates
    simp only [runToolLoop, alwaysToolBackend, collectFunctionResponses,
      appliedUpdates, List.filterMap, List.isEmpty]
    exact ih _

/-- C4 counterexample: `handleRegenerateVariant` does not check the busy
flag — invoked on a variant whose `isGenerating` is `true`, it still issues
a (second, overlapping) full-quality call. -/
theorem busy_variant_still_issues_call :
    (getVariant c4Session "c1" "1:1").map AdVariant.isGenerating
        = some true ∧
    (runRegenerate "c1" "1:1" "p2" "2K" (some "data:image/png;base64,BBB")
        c4Session).map (fun r => r.1)
      = some [⟨CallKind.full, "c1", "1:1", "p2", "2K"⟩] := by
  decide

/-- C4 amended: the handlers do not consult the busy flag (a busy variant
still gets a second call issued); mutual exclusion is enforced only at the
UI layer, where the Regenerate and Edit controls are disabled whenever the
variant's `isGenerating` flag is true. -/
theorem busy_gate_at_ui_layer (s : List AdCreative)
    (id ratio np sz p : String) (outcome : Option String)
    (c : AdCreative) (w : AdVariant)
    (hc : getCreative s id = some c) (hw : recGet c.variants ratio = some w)
    (hbusy : w.isGenerating = true) :
    regenerateControlDisabled w = true ∧
    editControlDisabled w p = true ∧
    ∃ s', runRegenerate id ratio np sz outcome s
        = some ([⟨CallKind.full, id, ratio, np, sz⟩], s') := by
  refine ⟨by simp [regenerateControlDisabled, hbusy],
    by simp [editControlDisabled, hbusy], ?_⟩
  simp only [runRegenerate, hc, hw]
  cases outcome <;> exact ⟨_, rfl⟩

/-- Witness for `busy_gate_at_ui_layer` at concrete inputs. -/
theorem busy_gate_at_ui_layer_witness :
    regenerateControlDisabled c4BusyVariant = true ∧
    editControlDisabled c4BusyVariant "edit it" = true ∧
    ∃ s', runRegenerate "c1" "1:1" "p2" "2K" (some "u") c4Session
        = some ([⟨CallKind.full, "c1", "1:1", "p2", "2K"⟩], s') :=
  busy_gate_at_ui_layer c4Session "c1" "1:1" "p2" "2K" "edit it" (some "u")
    c4Creative c4BusyVariant (by decide) (by decide) (by decide)

/-- C5 counterexample: navigating `prev` on an empty history computes
`Math.max(0, -1 - 1) = 0`, leaving cursor `0` on a zero-length history —
neither a valid index nor the sentinel. -/
theorem navigate_empty_breaks_cursor_inv :
    cursorInv c5Variant ∧
    getVariant (navigateHistory "c1" "1:1" NavDir.prev c5Session) "c1" "1:1"
      = some ⟨"1:1", "p", [], 0, false⟩ ∧
    ¬ cursorInv ⟨"1:1", "p", [], 0, false⟩ := by
  decide

/-- C5 amended: every append moves the cursor to the new entry and keeps the
old entries as a left segment (nothing reordered or deleted), the appended
state satisfies the cursor invariant unconditionally, and navigation
preserves the invariant on every variant whose history is nonempty (the UI
renders the navigation buttons only when `history.length > 1`); only
navigating `prev` on an empty history escapes it. -/
theorem cursor_invariant_amended (v : AdVariant) (ratio url : String)
    (dir : NavDir) (hinv : cursorInv v) :
    cursorInv (variantAppendSuccess ratio url v) ∧
    (variantAppendSuccess ratio url v).currentHistoryIndex
        = (v.history.length : Int) ∧
    (variantAppendSuccess ratio url v).history.take v.history.length
        = v.history ∧
    (v.history ≠ [] →
      cursorInv { v with currentHistoryIndex := navIndex dir v }) ∧
    ({ v with currentHistoryIndex := navIndex dir v }).history = v.history := by
  refine ⟨?_, rfl, ?_, ?_, rfl⟩
  · left
    unfold variantAppendSuccess
    simp only [List.length_append, List.length_singleton]
    constructor
    · exact Int.ofNat_nonneg _
    · omega
  · unfold variantAppendSuccess
    simp only []
    exact List.take_left v.history _
  · intro hne
    have hlen : 1 ≤ v.history.length := by
      cases hh : v.history with
      | nil => exact absurd hh hne
      | cons a l => simp
    have hcur : 0 ≤ v.currentHistoryIndex ∧
        v.currentHistoryIndex < (v.history.length : Int) := by
      rcases hinv with h | ⟨_, hempty⟩
      · exact h
      · exact absurd hempty hne
    left
    cases dir with
    | prev =>
      simp only [navIndex]
      constructor
      · exact le_max_left 0 _
      · rcases le_or_lt (v.currentHistoryIndex - 1) 0 with hle | hlt
        · rw [max_eq_left hle]
          omega
        · rw [max_eq_right hlt.le]
          omega
    | next =>
      simp only [navIndex]
      constructor
      · rcases le_total ((v.history.length : Int) - 1)
            (v.currentHistoryIndex + 1) with hle | hle
        · rw [min_eq_left hle]; omega
        · rw [min_eq_right hle]; omega
      · rcases le_total ((v.history.length : Int) - 1)
            (v.currentHistoryIndex + 1) with hle | hle
        · rw [min_eq_left hle]; omega
        · rw [min_eq_right hle]; omega

/-- Witness for `cursor_invariant_amended` at concrete inputs. -/
theorem cursor_invariant_amended_witness :
    cursorInv c5FullVariant ∧
    (cursorInv (variantAppendSuccess "1:1" "u" c5FullVariant) ∧
      (variantAppendSuccess "1:1" "u" c5FullVariant).currentHistoryIndex
          = (c5FullVariant.history.length : Int) ∧
      (variantAppendSuccess "1:1" "u" c5FullVariant).history.take
          c5FullVariant.history.length = c5FullVariant.history ∧
      (c5FullVariant.history ≠ [] →
        cursorInv { c5FullVariant with
          currentHistoryIndex := navIndex NavDir.prev c5FullVariant }) ∧
      ({ c5FullVariant with
          currentHistoryIndex := navIndex NavDir.prev c5FullVariant }).history
        = c5FullVariant.history) :=
  ⟨by decide,
    cursor_invariant_amended c5FullVariant "1:1" "u" NavDir.prev (by decide)⟩

/-- C6 counterexample: a Regenerate whose remote call fails does **not**
leave every other part of the Creative as it was — the Creative-level
shared `imageSize` keeps the new quality written at invocation
(`"4K"` here, where it was `"1K"` before). -/
theorem failed_regenerate_changes_imageSize :
    (getCreative c6Session "c1").map AdCreative.imageSize = some "1K" ∧
    (runRegenerate "c1" "1:1" "p2" "4K" none c6Session).map
        (fun r => r.2.map AdCreative.imageSize) = some ["4K"] := by
  decide

/-- C6 amended: a failed Regenerate clears the busy flag, leaves the target
variant's history and cursor unchanged, leaves the other ratios' variants
and every other Creative untouched, and keeps all Creative-level fields
except the shared `imageSize`, which retains the new quality written at
invocation. -/
theorem regenerate_failure_isolation (s : List AdCreative)
    (id ratio np sz : String) (c : AdCreative) (v : AdVariant)
    (hc : getCreative s id = some c) (hv : recGet c.variants ratio = some v) :
    runRegenerate id ratio np sz none s
        = some ([⟨CallKind.full, id, ratio, np, sz⟩],
            clearBusy id ratio (regenerateStart id ratio np sz s)) ∧
    (∃ v', getVariant (clearBusy id ratio (regenerateStart id ratio np sz s))
          id ratio = some v' ∧
        v'.isGenerating = false ∧
        v'.history = v.history ∧
        v'.currentHistoryIndex = v.currentHistoryIndex) ∧
    (∀ r, r ≠ ratio →
      getVariant (clearBusy id ratio (regenerateStart id ratio np sz s)) id r
        = getVariant s id r) ∧
    (∀ (i : Nat) (c₀ : AdCreative), s[i]? = some c₀ → c₀.id ≠ id →
      (clearBusy id ratio (regenerateStart id ratio np sz s))[i]? = some c₀) ∧
    (∃ c', getCreative (clearBusy id ratio (regenerateStart id ratio np sz s))
          id = some c' ∧
        c'.id = c.id ∧ c'.title = c.title ∧ c'.subtitle = c.subtitle ∧
        c'.rationale = c.rationale ∧ c'.activeVariant = c.activeVariant ∧
        c'.status = c.status ∧ c'.imageSize = sz) := by
  have hvs : getVariant s id ratio = some v := by
    unfold getVariant
    rw [hc]
    exact hv
  refine ⟨?_, ?_, ?_, ?_, ?_⟩
  · simp only [runRegenerate, hc, hv]
  · rw [getVariant_clearBusy, getVariant_regenerateStart, hvs]
    exact ⟨_, rfl, rfl, rfl, rfl⟩
  · intro r hr
    rw [getVariant_clearBusy_ne _ _ _ _ hr,
      getVariant_regenerateStart_ne _ _ _ _ _ _ hr]
  · intro i c₀ hget hne
    unfold clearBusy regenerateStart
    exact updateCreative_getElem?_ne (updateCreative_getElem?_ne hget hne) hne
  · unfold clearBusy regenerateStart
    rw [getCreative_updateCreative_self (by intro x; rfl),
      getCreative_updateCreative_self (by intro x; rfl), hc]
    exact ⟨_, rfl, rfl, rfl, rfl, rfl, rfl, rfl, rfl⟩

/-- Witness for `regenerate_failure_isolation` at concrete inputs. -/
theorem regenerate_failure_isolation_witness :
    getCreative c6Session "c1" = some c6Creative ∧
    (∃ c', getCreative
          (clearBusy "c1" "1:1" (regenerateStart "c1" "1:1" "p2" "4K"
            c6Session)) "c1" = some c' ∧
        c'.id = c6Creative.id ∧ c'.title = c6Creative.title ∧
        c'.subtitle = c6Creative.subtitle ∧
        c'.rationale = c6Creative.rationale ∧
        c'.activeVariant = c6Creative.activeVariant ∧
        c'.status = c6Creative.status ∧ c'.imageSize = "4K") :=
  ⟨by decide,
    (regenerate_failure_isolation c6Session "c1" "1:1" "p2" "4K" c6Creative
      ⟨"1:1", "p", [⟨"u0", "1:1", false⟩], 0, false⟩
      (by decide) (by decide)).2.2.2.2⟩

/-! ## The Creative-level imageSize write of Regenerate -/
/-- C10: `handleRegenerateVariant` writes the requested quality into the
Creative-level shared `imageSize` before the remote call is issued
(`regenerateStart` precedes the `generateAdImage` call in the handler), the
write survives a failed call, and a subsequent approval fan-out on the same
Creative issues all of its sibling-ratio calls at that quality. -/
theorem regenerate_writes_shared_imageSize (s : List AdCreative)
    (id ratio np sz : String) (c : AdCreative) (v : AdVariant)
    (outcomes : String → Option String) (settleOrder : List String)
    (hc : getCreative s id = some c) (_hv : recGet c.variants ratio = some v) :
    (∃ c₁, getCreative (regenerateStart id ratio np sz s) id = some c₁ ∧
        c₁.imageSize = sz) ∧
    (∃ c₂, getCreative
          (clearBusy id ratio (regenerateStart id ratio np sz s)) id
        = some c₂ ∧ c₂.imageSize = sz) ∧
    (∀ call ∈ (handleApproveCreative id outcomes settleOrder
        (regenerateStart id ratio np sz s)).1, call.imageSize = sz) := by
  have h1 : getCreative (regenerateStart id ratio np sz s) id
      = some { c with
          imageSize := sz,
          variants := recUpdate c.variants ratio
            (fun v => { v with imagePrompt := np, isGenerating := true }) } := by
    unfold regenerateStart
    rw [getCreative_updateCreative_self (by intro x; rfl), hc]
    rfl
  refine ⟨⟨_, h1, rfl⟩, ?_, ?_⟩
  · unfold clearBusy
    rw [getCreative_updateCreative_self (by intro x; rfl), h1]
    exact ⟨_, rfl, rfl⟩
  · intro call hcall
    simp only [handleApproveCreative, h1] at hcall
    obtain ⟨p, _, rfl⟩ := List.mem_map.mp hcall
    rfl

/-- Witness for `regenerate_writes_shared_imageSize` at concrete inputs. -/
theorem regenerate_writes_shared_imageSize_witness :
    getCreative c6Session "c1" = some c6Creative ∧
    (∃ c₁, getCreative (regenerateStart "c1" "1:1" "p2" "4K" c6Session) "c1"
        = some c₁ ∧ c₁.imageSize = "4K") :=
  ⟨by decide,
    (regenerate_writes_shared_imageSize c6Session "c1" "1:1" "p2" "4K"
      c6Creative ⟨"1:1", "p", [⟨"u0", "1:1", false⟩], 0, false⟩
      (fun _ => none) [] (by decide) (by decide)).1⟩

/-! ## Legacy snapshot import -/
/-- C8: `handleImport`'s migration turns a legacy variant holding a single
embedded `image` (and no, or an empty, history list) into a one-entry
history holding that image (with `isPreview: false`) and cursor `0`; a
legacy variant with neither `image` nor `history` becomes an empty history
with the `-1` sentinel; and a creative with no `status` field is assigned
the terminal `'completed'` status. -/
theorem import_migration (v1 v2 : RawVariant) (img : LegacyImage)
    (c : RawCreative)
    (h1i : v1.image = some img)
    (h1h : v1.history = none ∨ v1.history = some [])
    (h2i : v2.image = none) (h2h : v2.history = none)
    (hcs : c.status = none) :
    (migrateVariant v1).history = [⟨img.url, img.aspectRatio, false⟩] ∧
    (migrateVariant v1).currentHistoryIndex = 0 ∧
    (migrateVariant v2).history = [] ∧
    (migrateVariant v2).currentHistoryIndex = -1 ∧
    (migrateCreative c).status = CreativeStatus.completed := by
  refine ⟨?_, ?_, ?_, ?_, ?_⟩
  · rcases h1h with h1h | h1h <;> simp [migrateVariant, h1i, h1h]
  · rcases h1h with h1h | h1h <;> simp [migrateVariant, h1i, h1h]
  · simp [migrateVariant, h2i, h2h]
  · simp [migrateVariant, h2i, h2h]
  · simp [migrateCreative, hcs]

/-- Witness for `import_migration` at concrete inputs. -/
theorem import_migration_witness :
    (migrateVariant c8LegacyVariant).history = [⟨"u-old", "1:1", false⟩] ∧
    (migrateVariant c8LegacyVariant).currentHistoryIndex = 0 ∧
    (migrateVariant c8EmptyVariant).history = [] ∧
    (migrateVariant c8EmptyVariant).currentHistoryIndex = -1 ∧
    (migrateCreative c8LegacyCreative).status = CreativeStatus.completed :=
  import_migration c8LegacyVariant c8EmptyVariant ⟨"u-old", "1:1"⟩
    c8LegacyCreative (by decide) (Or.inl (by decide)) (by decide) (by decide)
    (by decide)

/-- C9 counterexample: `handleGenerateMore` builds ids from
`Date.now()` and the batch index without checking the existing collection —
a batch at timestamp `5` hands out `"5-0-added"` even though a creative with that id is already present. -/
theorem generate_more_id_collision :
    c9Prev.map AdCreative.id = ["5-0-added"] ∧
    (handleGenerateMoreAppend 5 ["1:1"] "1K" [c9Concept] c9Prev).map
        AdCreative.id
      = ["5-0-added", "5-0-added"] := by
  decide

/-- C9 amended: Generate More appends the new creatives after every
pre-existing creative without touching them; within one batch (one
`Date.now()` timestamp) the new ids are pairwise distinct, and an added id
can never collide with an id produced by the initial generation; a
collision with a pre-existing id is possible only when the collection
already holds an id of the `t-i-added` shape with the batch's own timestamp
and index. -/
theorem generate_more_appends (t : Nat) (aspectRatios : List String)
    (imageSize : String) (tcs : List ConceptText) (prev : List AdCreative) :
    (handleGenerateMoreAppend t aspectRatios imageSize tcs prev).take
        prev.length = prev ∧
    (handleGenerateMoreAppend t aspectRatios imageSize tcs prev).length
        = prev.length + tcs.length ∧
    ((handleGenerateMoreAppend t aspectRatios imageSize tcs prev).drop
        prev.length).map AdCreative.id
      = (List.range tcs.length).map (mkAddedCreativeId t) ∧
    (∀ i j : Nat, i ≠ j → mkAddedCreativeId t i ≠ mkAddedCreativeId t j) ∧
    (∀ i t' j : Nat, mkAddedCreativeId t i ≠ mkInitialCreativeId t' j) := by
  refine ⟨?_, ?_, ?_, ?_, ?_⟩
  · unfold handleGenerateMoreAppend
    exact List.take_left prev _
  · unfold handleGenerateMoreAppend
    simp [List.enum_length]
  · unfold handleGenerateMoreAppend
    rw [List.drop_left, List.map_map]
    have hcomp : tcs.enum.map
          (AdCreative.id ∘ fun p =>
            mkAddedCreative t aspectRatios imageSize p.1 p.2)
        = (tcs.enum.map Prod.fst).map (mkAddedCreativeId t) := by
      rw [List.map_map]
      rfl
    rw [hcomp, List.enum_map_fst]
  · intro i j hij hEq
    exact hij (mkAddedCreativeId_inj_right hEq)
  · intro i t' j
    exact mkAddedCreativeId_ne_initial t i t' j

/-- Witness for `generate_more_appends` at concrete inputs. -/
theorem generate_more_appends_witness :
    (handleGenerateMoreAppend 7 ["1:1"] "1K" [c9Concept, c9Concept]
        c9Prev).take 1 = c9Prev ∧
    mkAddedCreativeId 7 0 ≠ mkAddedCreativeId 7 1 ∧
    mkAddedCreativeId 7 0 ≠ mkInitialCreativeId 7 0 := by
  have h := generate_more_appends 7 ["1:1"] "1K" [c9Concept, c9Concept]
    c9Prev
  exact ⟨h.1, h.2.2.2.1 0 1 (by decide), h.2.2.2.2 0 7 0⟩
